import Mathlib

/-!
Verification of the tokenizer and text-reconstruction core of the borb/pText
PDF library.

The Python sources are shallowly embedded:

* the byte stream of `LowLevelTokenizer` becomes a `List ℕ` of latin-1 code
  points together with an absolute position (Python `tell()`); `read(1)` at
  end-of-stream returns the empty string and does not move the cursor, and
  `_prev_char` rewinds one byte, so every loop is translated with its exact
  net cursor movement;
* `decimal.Decimal` values become exact rationals `ℚ`.  A `Decimal`
  constructed from a float literal (e.g. `Decimal(0.001)`) is the exact
  rational value of the IEEE-754 double nearest the literal, not the literal
  itself; those constants are spelled out below.  Context rounding of
  `Decimal` arithmetic (28 significant digits) is not modelled: every
  (in)equality stated below is decided by margins far above the 28th digit;
* Python strings become `List Char` (for unicode text) or `List ℕ` (for
  latin-1 token text);
* a fallible call becomes an explicit result constructor (`NextTokenResult`).
-/

namespace Borb

/-- Exact rational value of the IEEE-754 double nearest 0.001, i.e. the value
of Python `Decimal(0.001)` (float argument): 1152921504606847 / 2^60. -/
def dec0_001 : ℚ := 1152921504606847 / 1152921504606846976

/-- Exact rational value of the IEEE-754 double nearest 0.90, i.e. the value
of Python `Decimal(0.90)` (float argument): 8106479329266893 / 2^53. -/
def dec0_90 : ℚ := 8106479329266893 / 9007199254740992

/-! ## Tokenizer (`ptext/io/read/tokenize/low_level_tokenizer.py`) -/

/-- The `TokenType` enumeration of `low_level_tokenizer.py`. -/
inductive TokType
  | NUMBER
  | STRING
  | HEX_STRING
  | NAME
  | COMMENT
  | START_ARRAY
  | END_ARRAY
  | START_DICT
  | END_DICT
  | REF
  | OBJ
  | END_OBJ
  | OTHER
  | END_OF_FILE
deriving DecidableEq, Repr

/-- A `Token`: byte offset of its first character, its type, and its text
(as latin-1 code points). -/
structure Token where
  byte_offset : ℕ
  token_type : TokType
  text : List ℕ
deriving DecidableEq, Repr

/-- Result of one `next_token()` call: the Python `None` sentinel, a token
together with the stream position after the call, a `PDFSyntaxError`
carrying `byte_offset=tell()`, or a `PDFEOFError` (raised as `PDFEOFError()`,
hence carrying no byte offset). -/
inductive NextTokenResult
  | eos
  | token (t : Token) (newPos : ℕ)
  | syntaxError (byteOffset : ℕ)
  | eofError
deriving DecidableEq, Repr

/-- `_is_whitespace`: latin-1 code points {0, 9, 10, 12, 13, 32}. -/
def isWS (b : ℕ) : Bool := b ∈ [0, 9, 10, 12, 13, 32]

/-- `_is_delimiter`: whitespace plus `% ( ) / < > [ ]`.  (The `-1` entry of
the Python table is the EOF sentinel of a different byte-source API and is
unreachable for an actual byte, every call site first checks
`len(ch) != 0`.) -/
def isDelim (b : ℕ) : Bool :=
  b ∈ [0, 9, 10, 12, 13, 32, 37, 40, 41, 47, 60, 62, 91, 93]

/-- Membership of one byte in the Python string "-+.0123456789" used by the
NUMBER branch. -/
def isNumChar (b : ℕ) : Bool :=
  b ∈ [45, 43, 46, 48, 49, 50, 51, 52, 53, 54, 55, 56, 57]

/-- Number of leading non-delimiter bytes: the bytes consumed into the token
text by the NAME and OTHER accumulation loops (their terminating delimiter,
if any, is pushed back). -/
def countNonDelim : List ℕ → ℕ
  | [] => 0
  | b :: t => if isDelim b then 0 else countNonDelim t + 1

/-- Number of leading bytes that are neither CR (13) nor LF (10): the bytes
consumed into a COMMENT token after the leading `%`. -/
def countComment : List ℕ → ℕ
  | [] => 0
  | b :: t => if b = 13 || b = 10 then 0 else countComment t + 1

/-- Number of leading bytes in the NUMBER character class consumed after the
first one. -/
def countNum : List ℕ → ℕ
  | [] => 0
  | b :: t => if isNumChar b then countNum t + 1 else 0

/-- Body of the HEX_STRING accumulation loop: raw bytes up to and including
the first `>` (62), or everything if the stream ends first (no error in that
case). -/
def hexBody : List ℕ → List ℕ
  | [] => []
  | b :: t => if b = 62 then [62] else b :: hexBody t

/-- The parenthesized-STRING accumulation loop of `next_token`, entered with
`bracket_nesting_level` and the bytes after the opening `(`.  Returns the
text appended after the opening `(`, whether the loop ended because
`read(1)` returned nothing (end-of-stream), and the number of bytes
consumed.  A backslash copies itself plus the following byte verbatim
(without interpreting the escape); `(` / `)` move the nesting counter and
the loop stops once it reaches 0. -/
def stringLoop : List ℕ → ℕ → List ℕ × Bool × ℕ
  | [], _ => ([], true, 0)
  | b :: t, lvl =>
    if b = 92 then
      match t with
      | [] => ([92], true, 1)
      | b2 :: t2 =>
        let r := stringLoop t2 lvl
        (92 :: b2 :: r.1, r.2.1, r.2.2 + 2)
    else
      let lvl' := if b = 40 then lvl + 1 else if b = 41 then lvl - 1 else lvl
      if lvl' = 0 then ([b], false, 1)
      else
        let r := stringLoop t lvl'
        (b :: r.1, r.2.1, r.2.2 + 1)

/-- Dispatch of `next_token` after the whitespace loop exited on an actual
character `c` (so `c` is not whitespace).  `t` is the remaining stream and
`pos` the value of `tell()` right after reading `c`; every branch mirrors
the corresponding Python branch, including its exact byte offsets and net
cursor movement (push-back of a terminating delimiter included). -/
def dispatchChar (c : ℕ) (t : List ℕ) (pos : ℕ) : NextTokenResult :=
  if c = 91 then .token ⟨pos - 1, .START_ARRAY, [91]⟩ pos
  else if c = 93 then .token ⟨pos - 1, .END_ARRAY, [93]⟩ pos
  else if c = 47 then
    let n := countNonDelim t
    .token ⟨pos - 1, .NAME, 47 :: t.take n⟩ (pos + n)
  else if c = 62 then
    match t with
    | [] => .syntaxError pos
    | d :: _ =>
      if d = 62 then .token ⟨pos - 1, .END_DICT, [62, 62]⟩ (pos + 1)
      else .syntaxError (pos + 1)
  else if c = 37 then
    let n := countComment t
    .token ⟨pos - 1, .COMMENT, 37 :: t.take n⟩ (pos + n)
  else if c = 60 then
    match t with
    | [] => .token ⟨pos - 1, .HEX_STRING, [60]⟩ pos
    | d :: t2 =>
      if d = 60 then .token ⟨pos - 1, .START_DICT, [60, 60]⟩ (pos + 1)
      else if d = 62 then .token ⟨pos - 1, .HEX_STRING, [60, 62]⟩ (pos + 1)
      else
        let body := hexBody t2
        .token ⟨pos - 1, .HEX_STRING, 60 :: d :: body⟩ (pos + 1 + body.length)
  else if isNumChar c then
    let n := countNum t
    .token ⟨pos - 1, .NUMBER, c :: t.take n⟩ (pos + n)
  else if c = 40 then
    match stringLoop t 1 with
    | (_, true, _) => .eofError
    | (txt, false, n) =>
      let full := 40 :: txt
      if full.getLast? = some 92 then .syntaxError (pos + n)
      else .token ⟨pos - 1, .STRING, full⟩ (pos + n)
  else
    if isDelim c then .token ⟨pos - 1, .OTHER, []⟩ (pos - 1)
    else
      let n := countNonDelim t
      .token ⟨pos - 1, .OTHER, c :: t.take n⟩ (pos + n)

/-- The whitespace-skipping loop of `next_token`, entered after at least one
whitespace byte has already been read (so the "first read hit end-of-stream"
early return is no longer possible).  If the loop exhausts the stream, the
empty string read then falls through every dispatch test down to the NUMBER
branch, because in Python the membership test of the empty string in
"-+.0123456789" is true; the NUMBER accumulation loop runs zero times and an
empty NUMBER token at offset `tell() - 1` is returned. -/
def skipWS : List ℕ → ℕ → NextTokenResult
  | [], pos => .token ⟨pos - 1, .NUMBER, []⟩ pos
  | b :: t, pos =>
    if isWS b then skipWS t (pos + 1) else dispatchChar b t (pos + 1)

/-- `LowLevelTokenizer.next_token` on the remaining stream `l`, where `p0` is
the current `tell()` value.  An immediate end-of-stream returns the Python
`None` sentinel. -/
def nextTokenFrom : List ℕ → ℕ → NextTokenResult
  | [], _ => .eos
  | b :: t, p0 =>
    if isWS b then skipWS t (p0 + 1) else dispatchChar b t (p0 + 1)

/-- `next_token` on a fresh tokenizer: stream position 0. -/
def nextToken (l : List ℕ) : NextTokenResult := nextTokenFrom l 0

/-! ## Glyphs and glyph lines (`borb/pdf/canvas/font/glyph_line.py`)

The `Font` capability is consumed through exactly two of its methods here:
`character_identifier_to_unicode(code)` and `get_width(code)`. -/

/-- A `Glyph`: character code, unicode text, width in font design units.
(The ptext sibling class carries the same three fields, exposed as plain
attributes `unicode` and `width`.) -/
structure Glyph where
  character_code : ℕ
  unicode : List Char
  width : ℚ
deriving DecidableEq, Repr

/-- The `Font` capability, restricted to the two lookups used by `GlyphLine`
construction. -/
structure FontCap where
  toUnicode : ℕ → Option (List Char)
  widthOf : ℕ → Option ℚ

/-- Python `font.get_width(code) or Decimal(0)`: `None` falls back to 0 (and
`Decimal(0)` is itself falsy, so the fallback maps 0 to 0 either way). -/
def widthOrZero (w : Option ℚ) : ℚ :=
  match w with
  | some x => x
  | none => 0

/-- The replacement character U+FFFD emitted for unmapped codes. -/
def replacementChar : Char := Char.ofNat 65533

/-- The construction loop of `GlyphLine.__init__`: at each index, first try
the 16-bit big-endian code of the next two bytes; when the font maps it,
emit one glyph for both bytes; otherwise try the single byte; when even that
has no mapping, emit the fallback glyph (code, replacement character, width
250). -/
def buildGlyphs (toU : ℕ → Option (List Char)) (wi : ℕ → Option ℚ) :
    List ℕ → List Glyph
  | [] => []
  | [b0] =>
    match toU b0 with
    | some u => [⟨b0, u, widthOrZero (wi b0)⟩]
    | none => [⟨b0, [replacementChar], 250⟩]
  | b0 :: b1 :: rest =>
    let code2 := b0 * 256 + b1
    match toU code2 with
    | some u => ⟨code2, u, widthOrZero (wi code2)⟩ :: buildGlyphs toU wi rest
    | none =>
      match toU b0 with
      | some u => ⟨b0, u, widthOrZero (wi b0)⟩ :: buildGlyphs toU wi (b1 :: rest)
      | none => ⟨b0, [replacementChar], 250⟩ :: buildGlyphs toU wi (b1 :: rest)

/-- A `GlyphLine`: the glyphs, the shared font, and the four text-state
scalars. -/
structure GlyphLine where
  glyphs : List Glyph
  font : FontCap
  font_size : ℚ
  character_spacing : ℚ
  word_spacing : ℚ
  horizontal_scaling : ℚ

/-- `GlyphLine(text_bytes, font, font_size, character_spacing, word_spacing,
horizontal_scaling)`. -/
def mkGlyphLine (font : FontCap) (text_bytes : List ℕ) (font_size : ℚ)
    (character_spacing word_spacing horizontal_scaling : ℚ) : GlyphLine :=
  { glyphs := buildGlyphs font.toUnicode font.widthOf text_bytes
    font := font
    font_size := font_size
    character_spacing := character_spacing
    word_spacing := word_spacing
    horizontal_scaling := horizontal_scaling }

/-- `GlyphLine.get_text`: concatenation of every glyph's unicode text. -/
def getText (gs : List Glyph) : List Char := (gs.map Glyph.unicode).flatten

/-- `GlyphLine.get_text` on a line. -/
def GlyphLine.get_text (gl : GlyphLine) : List Char := getText gl.glyphs

/-- `GlyphLine._isspace`: code points {9, 10, 11, 12, 13, 32}. -/
def isSpaceChar (c : Char) : Bool := c.toNat ∈ [9, 10, 11, 12, 13, 32]

/-- The word-spacing test of `GlyphLine.get_width_in_text_space`: the
glyph's unicode text is exactly one character and that character is
whitespace. -/
def borbIsSpaceGlyph (g : Glyph) : Bool :=
  match g.unicode with
  | [c] => isSpaceChar c
  | _ => false

/-- The word-spacing test of
`TextRenderEvent._get_pdf_string_width_in_text_space`: Python
`g.unicode == " "`, i.e. the unicode text is exactly the one-character
string of a space (code 32). -/
def unicodeIsSpaceStr (g : Glyph) : Bool := g.unicode = [' ']

/-- `GlyphLine.get_width_in_text_space`: per glyph,
`width * font_size * Decimal(0.001)`, plus `word_spacing` when the glyph
passes `_isspace`, times `horizontal_scaling / 100`, plus
`character_spacing`; summed, then `character_spacing` subtracted once. -/
def GlyphLine.get_width_in_text_space (gl : GlyphLine) : ℚ :=
  (gl.glyphs.foldl
    (fun w g =>
      w + ((g.width * gl.font_size * dec0_001
            + (if borbIsSpaceGlyph g then gl.word_spacing else 0))
           * (gl.horizontal_scaling / 100)
           + gl.character_spacing))
    0)
  - gl.character_spacing

/-- `TextRenderEvent._get_pdf_string_width_in_text_space(graphics_state)`:
the same loop, reapplied at the string level with the graphics-state
scalars, except that its word-spacing test is `g.unicode == " "`. -/
def pdfStringWidthInTextSpace (gs : List Glyph)
    (font_size character_spacing word_spacing horizontal_scaling : ℚ) : ℚ :=
  (gs.foldl
    (fun w g =>
      w + ((g.width * font_size * dec0_001
            + (if unicodeIsSpaceStr g then word_spacing else 0))
           * (horizontal_scaling / 100)
           + character_spacing))
    0)
  - character_spacing

/-- `GlyphLine.split`: for each glyph, construct a fresh line with
`GlyphLine(b"", font, font_size, character_spacing, word_spacing,
horizontal_scaling)` and overwrite its glyph list with the singleton of that
glyph.  The method only reads the receiver, so the call is modelled as
returning the receiver's (unchanged) state alongside the result list. -/
def GlyphLine.split (gl : GlyphLine) : GlyphLine × List GlyphLine :=
  (gl,
   gl.glyphs.map fun g =>
     { mkGlyphLine gl.font [] gl.font_size gl.character_spacing
         gl.word_spacing gl.horizontal_scaling
       with glyphs := [g] })

/-! ## Geometry (`ptext/pdf/canvas/geometry`)

Modelled from the spec: the ptext geometry module is not among the given
sources; per the design, a line segment holds two endpoints and
`transform_by` maps both endpoints through the composed 2D affine
text-to-page transform. -/

/-- A 2D affine transform with the PDF row-vector convention:
`(x, y) ↦ (a·x + c·y + e, b·x + d·y + f)`. -/
structure Matrix2D where
  a : ℚ
  b : ℚ
  c : ℚ
  d : ℚ
  e : ℚ
  f : ℚ
deriving DecidableEq, Repr

/-- The identity transform. -/
def Matrix2D.id : Matrix2D := ⟨1, 0, 0, 1, 0, 0⟩

/-- A line segment in the plane. -/
structure LineSegment where
  x0 : ℚ
  y0 : ℚ
  x1 : ℚ
  y1 : ℚ
deriving DecidableEq, Repr

/-- Modelled from the spec: `LineSegment.transform_by` applies the affine
transform to both endpoints. -/
def LineSegment.transform_by (s : LineSegment) (m : Matrix2D) : LineSegment :=
  ⟨m.a * s.x0 + m.c * s.y0 + m.e, m.b * s.x0 + m.d * s.y0 + m.f,
   m.a * s.x1 + m.c * s.y1 + m.e, m.b * s.x1 + m.d * s.y1 + m.f⟩

/-! ## TextRenderEvent (`ptext/pdf/canvas/event/text_render_event.py`) -/

/-- The test `g == " "` in `TextRenderEvent.split_on_glyphs`: a `Glyph`
object is compared with the one-character string " ".  `Glyph` is a plain
record (per the data model it defines no equality against strings), so
Python default object equality applies and the comparison is false for
every glyph. -/
def glyphEqSpaceStr (_ : Glyph) : Bool := false

/-- The per-glyph chain of `TextRenderEvent.split_on_glyphs`: starting from
`prev_x` (initially 0) at height `text_rise`, each glyph gets the segment
from `(prev_x, text_rise)` to `(prev_x + w, text_rise)` where
`w = width * font_size * Decimal(0.001) * (horizontal_scaling / 100)
+ (word_spacing if g == " " else 0) + character_spacing`; the segment is
transformed into page space per glyph and `prev_x` advances by `w`. -/
def splitOnGlyphsAux (m : Matrix2D)
    (font_size horizontal_scaling word_spacing character_spacing
      text_rise : ℚ) :
    List Glyph → ℚ → List LineSegment
  | [], _ => []
  | g :: gs, prev_x =>
    let w := g.width * font_size * dec0_001 * (horizontal_scaling / 100)
             + (if glyphEqSpaceStr g then word_spacing else 0)
             + character_spacing
    (LineSegment.transform_by ⟨prev_x, text_rise, prev_x + w, text_rise⟩ m)
      :: splitOnGlyphsAux m font_size horizontal_scaling word_spacing
          character_spacing text_rise gs (prev_x + w)

/-- The list of per-glyph page-space baseline segments produced by
`TextRenderEvent.split_on_glyphs`. -/
def splitOnGlyphs (m : Matrix2D)
    (font_size horizontal_scaling word_spacing character_spacing
      text_rise : ℚ) (gs : List Glyph) : List LineSegment :=
  splitOnGlyphsAux m font_size horizontal_scaling word_spacing
    character_spacing text_rise gs 0

/-! ## LineRenderEvent (`ptext/toolkit/structure/line/line_render_event.py`)

For line reconstruction an event contributes only its text, its page-space
baseline endpoints, and its estimated space-character width; a
`TextRenderEvent` is modelled by exactly those fields. -/

/-- The slice of a `TextRenderEvent` consumed by `LineRenderEvent`:
`get_text()`, the baseline endpoints, and
`get_space_character_width_in_text_space()`. -/
structure TRE where
  text : List Char
  x0 : ℚ
  y0 : ℚ
  x1 : ℚ
  y1 : ℚ
  space_character_width : ℚ
deriving DecidableEq, Repr

/-- Python `text.startswith(" ")` on a string modelled as `List Char`. -/
def startsWithSpace (s : List Char) : Bool :=
  match s with
  | c :: _ => c = ' '
  | [] => false

/-- Python `text.endswith(" ")`; the empty string ends with nothing. -/
def endsWithSpace (s : List Char) : Bool := s.getLast? = some ' '

/-- Truncation of a rational toward zero (the rounding of Python `Decimal`
integer division, whose remainder keeps the sign of the dividend). -/
def ratTrunc (q : ℚ) : ℤ := if 0 ≤ q then ⌊q⌋ else ⌈q⌉

/-- Python `x % y` on `Decimal` operands: remainder of truncating division,
carrying the sign of the dividend. -/
def pyDecMod (x y : ℚ) : ℚ := x - y * (ratTrunc (x / y) : ℚ)

/-- Banker's rounding (round half to even) of a rational to an integer: the
rounding used by Python `round` on a `Decimal` (context `ROUND_HALF_EVEN`). -/
def roundHalfEvenInt (q : ℚ) : ℤ :=
  let fl := ⌊q⌋
  let r := q - (fl : ℚ)
  if r < 1 / 2 then fl
  else if 1 / 2 < r then fl + 1
  else if fl % 2 = 0 then fl else fl + 1

/-- Python `round(d, 1)` on a `Decimal`: quantize to one decimal place with
ROUND_HALF_EVEN. -/
def pyRound1 (q : ℚ) : ℚ := (roundHalfEvenInt (10 * q) : ℚ) / 10

/-- The accumulation loop of `LineRenderEvent.get_text`: `text` is the text
built so far and `right` the running right edge.  An event whose text begins
with a space, or that follows text already ending in a space, is appended
as-is; otherwise one space is inserted exactly when
`round(space_character_width, 1) * Decimal(0.90) < |right - x0|`, the
comparison being made against the previous event's right edge. -/
def lreGetTextLoop (text : List Char) (right : ℚ) :
    List TRE → List Char
  | [] => text
  | e :: es =>
    if startsWithSpace e.text || endsWithSpace text then
      lreGetTextLoop (text ++ e.text) (max e.x0 e.x1) es
    else
      let delta := |right - e.x0|
      let space_width := pyRound1 e.space_character_width
      let right' := max e.x0 e.x1
      let text' :=
        text ++ (if space_width * dec0_90 < delta then [' '] else []) ++ e.text
      lreGetTextLoop text' right' es

/-- `LineRenderEvent.get_text` on a non-empty event list `e0 :: es`:
`right` starts at `min(x0, x1)` of the first event and the loop runs over
every contained event, the first one included. -/
def lreGetText (e0 : TRE) (es : List TRE) : List Char :=
  lreGetTextLoop [] (min e0.x0 e0.x1) (e0 :: es)

/-- The accumulator loop of `LineRenderEvent.get_baseline`: fold the min of
all x-endpoints and the max of all x-endpoints over the events. -/
def lreBaselineLoop : List TRE → ℚ → ℚ → ℚ × ℚ
  | [], mn, mx => (mn, mx)
  | e :: es, mn, mx =>
    lreBaselineLoop es (min mn (min e.x0 e.x1)) (max mx (max e.x0 e.x1))

/-- `LineRenderEvent.get_baseline` on a non-empty event list `e0 :: es`:
both accumulators are initialized from `min(x0, x1)` of the first event (the
`max_x` initializer also uses `min`, as written in the source), the loop
then runs over every contained event, and the result carries the first
event's `y0` on both ends. -/
def lreGetBaseline (e0 : TRE) (es : List TRE) : LineSegment :=
  let init := min e0.x0 e0.x1
  let mm := lreBaselineLoop (e0 :: es) init init
  ⟨mm.1, e0.y0, mm.2, e0.y0⟩

/-! ## LeftToRightComparator (`text_render_event.py`) -/

/-- `LeftToRightComparator.cmp`: quantize each event's baseline-start y by
`y - y % 5`; on equal bands order by the difference of the baseline-start
x-coordinates, otherwise by the negated difference of the quantized
y-coordinates. -/
def LeftToRightComparator.cmp (a b : TRE) : ℚ :=
  let y0_round := a.y0 - pyDecMod a.y0 5
  let y1_round := b.y0 - pyDecMod b.y0 5
  if y0_round = y1_round then a.x0 - b.x0 else -(y0_round - y1_round)

/-- A font mapping nothing, used to populate the font field of concrete
glyph lines whose width computations never consult the font. -/
def trivialFont : FontCap := ⟨fun _ => none, fun _ => none⟩

/-- The font of claim C3: every single-byte code 0 to 255 maps to one
unicode character, nothing else maps. -/
def singleByteU (uc : ℕ → Char) : ℕ → Option (List Char) :=
  fun c => if c ≤ 255 then some [uc c] else none

/-- The width table of claim C3: width 500 for every single-byte code,
nothing else. -/
def singleByteW : ℕ → Option ℚ :=
  fun c => if c ≤ 255 then some 500 else none

/-! ## Theorems -/

/-- Flattening a list of singletons gives back the list. -/
theorem flatten_map_singleton {α : Type} (l : List α) :
    (l.map fun a => [a]).flatten = l := by
  induction l with
  | nil => rfl
  | cons a t ih => simp [ih]

/-- C9: LeftToRightComparator.cmp is antisymmetric — cmp a b = -(cmp b a)
for all events, and cmp a a = 0 — so it induces a consistent ordering when
used to sort events. -/
theorem cmp_antisymm :
    (∀ a b : TRE,
      LeftToRightComparator.cmp a b = -(LeftToRightComparator.cmp b a))
    ∧ (∀ a : TRE, LeftToRightComparator.cmp a a = 0) := by
  constructor
  · intro a b
    simp only [LeftToRightComparator.cmp]
    split_ifs with h1 h2 h3
    · ring
    · exact absurd h1.symm h2
    · exact absurd h3.symm h1
    · ring
  · intro a
    simp [LeftToRightComparator.cmp]

/-- C7 counterexample: on a line holding one single event with baseline
endpoints x0 = 1 and x1 = 5, get_baseline spans 1 to 5; it does not
collapse both ends to the minimum 1 as the claim states. -/
theorem lre_baseline_single_event_counterexample :
    lreGetBaseline ⟨['a'], 1, 2, 5, 2, 0⟩ [] = ⟨1, 2, 5, 2⟩ ∧
    lreGetBaseline ⟨['a'], 1, 2, 5, 2, 0⟩ [] ≠ ⟨1, 2, 1, 2⟩ := by
  norm_num [lreGetBaseline, lreBaselineLoop, min_def, max_def]

/-- C7 amended: for a single-event line, get_baseline spans min(x0, x1) to
max(x0, x1) of that event at the event's y0.  The max accumulator is
initialized from the minimum of the first event's endpoints, but the loop
runs over every contained event — the first included — so that initializer
is immediately absorbed and the x-range does not collapse. -/
theorem lre_baseline_single_event (e : TRE) :
    lreGetBaseline e [] =
      ⟨min e.x0 e.x1, e.y0, max e.x0 e.x1, e.y0⟩ := by
  simp [lreGetBaseline, lreBaselineLoop, min_self, max_eq_right min_le_max]

/-- C10: GlyphLine.split leaves the receiver unchanged; every returned line
holds exactly one glyph and carries the receiver's font and four text-state
scalars, and the concatenation of the returned lines' glyphs is the
receiver's glyph sequence in order. -/
theorem glyphline_split_frame (gl : GlyphLine) :
    (GlyphLine.split gl).1 = gl ∧
    ((GlyphLine.split gl).2.map GlyphLine.glyphs).flatten = gl.glyphs ∧
    ∀ l ∈ (GlyphLine.split gl).2,
      l.glyphs.length = 1 ∧ l.font = gl.font ∧ l.font_size = gl.font_size ∧
      l.character_spacing = gl.character_spacing ∧
      l.word_spacing = gl.word_spacing ∧
      l.horizontal_scaling = gl.horizontal_scaling := by
  refine ⟨rfl, ?_, ?_⟩
  · simp only [GlyphLine.split, mkGlyphLine, List.map_map]
    have hcomp : (GlyphLine.glyphs ∘ fun g =>
        ({ glyphs := [g], font := gl.font, font_size := gl.font_size,
           character_spacing := gl.character_spacing,
           word_spacing := gl.word_spacing,
           horizontal_scaling := gl.horizontal_scaling } : GlyphLine))
        = fun g => [g] := rfl
    rw [hcomp, flatten_map_singleton]
  · intro l hl
    simp only [GlyphLine.split, mkGlyphLine, List.mem_map] at hl
    obtain ⟨g, _, rfl⟩ := hl
    exact ⟨rfl, rfl, rfl, rfl, rfl, rfl⟩

/-- C8 counterexample: a one-glyph line of width 1000 design units with
font_size 12, zero spacings and scaling 100 does not have width exactly 12,
because the 0.001 factor of the formula is the Decimal image of the binary
float 0.001. -/
theorem width_one_glyph_not_exactly_twelve :
    GlyphLine.get_width_in_text_space
        ⟨[⟨65, ['A'], 1000⟩], trivialFont, 12, 0, 0, 100⟩ ≠ 12 := by
  norm_num [GlyphLine.get_width_in_text_space, dec0_001, borbIsSpaceGlyph,
    isSpaceChar]

/-- C8 amended: that width equals 12000 · Decimal(0.001), where
Decimal(0.001) is the exact value of the double nearest 0.001; the result
lies strictly between 12 and 12 + 10⁻¹⁵, and in particular is not exactly
12. -/
theorem width_one_glyph_value :
    GlyphLine.get_width_in_text_space
        ⟨[⟨65, ['A'], 1000⟩], trivialFont, 12, 0, 0, 100⟩
      = 12000 * dec0_001 ∧
    12 < 12000 * dec0_001 ∧
    12000 * dec0_001 < 12 + 1 / 1000000000000000 := by
  norm_num [GlyphLine.get_width_in_text_space, dec0_001, borbIsSpaceGlyph,
    isSpaceChar]

/-- C6: the word_spacing argument never influences split_on_glyphs, because
its space test compares a Glyph object with the string " ", which is false
for every glyph; in particular no segment of a space glyph receives the
word_spacing contribution the design prescribes, while the contiguous
chaining of the segments is unaffected. -/
theorem split_on_glyphs_ignores_word_spacing
    (m : Matrix2D) (fs h ws cs rise : ℚ) (gs : List Glyph) :
    splitOnGlyphs m fs h ws cs rise gs = splitOnGlyphs m fs h 0 cs rise gs := by
  suffices H : ∀ (gs : List Glyph) (px : ℚ),
      splitOnGlyphsAux m fs h ws cs rise gs px
        = splitOnGlyphsAux m fs h 0 cs rise gs px by
    exact H gs 0
  intro gs
  induction gs with
  | nil => intro px; rfl
  | cons g t ih => intro px; simp [splitOnGlyphsAux, glyphEqSpaceStr, ih]

/-- The two per-glyph width steps agree on every glyph whose two space tests
coincide. -/
theorem width_foldl_congr (fs cs ws h : ℚ) :
    ∀ (gs : List Glyph) (a : ℚ),
      (∀ g ∈ gs, borbIsSpaceGlyph g = unicodeIsSpaceStr g) →
      gs.foldl
        (fun w g =>
          w + ((g.width * fs * dec0_001
                + (if borbIsSpaceGlyph g then ws else 0))
               * (h / 100) + cs)) a
        = gs.foldl
        (fun w g =>
          w + ((g.width * fs * dec0_001
                + (if unicodeIsSpaceStr g then ws else 0))
               * (h / 100) + cs)) a := by
  intro gs
  induction gs with
  | nil => intro a _; rfl
  | cons g t ih =>
    intro a hg
    have hgg : borbIsSpaceGlyph g = unicodeIsSpaceStr g := hg g (by simp)
    simp only [List.foldl_cons, hgg]
    exact ih _ (fun x hx => hg x (by simp [hx]))

/-- C5 amended: the string-level width computed by
TextRenderEvent._get_pdf_string_width_in_text_space equals
GlyphLine.get_width_in_text_space under the same scalars whenever no glyph
has a one-character whitespace unicode text other than the space character
itself: the string-level formula adds word_spacing only for unicode exactly
" " (code 32), while the glyph-line formula adds it for every one-character
unicode in the whitespace set {9, 10, 11, 12, 13, 32}. -/
theorem width_formulas_agree (gl : GlyphLine)
    (hg : ∀ g ∈ gl.glyphs, borbIsSpaceGlyph g = unicodeIsSpaceStr g) :
    gl.get_width_in_text_space
      = pdfStringWidthInTextSpace gl.glyphs gl.font_size gl.character_spacing
          gl.word_spacing gl.horizontal_scaling := by
  unfold GlyphLine.get_width_in_text_space pdfStringWidthInTextSpace
  rw [width_foldl_congr gl.font_size gl.character_spacing gl.word_spacing
    gl.horizontal_scaling gl.glyphs 0 hg]

/-- C5 witness: a concrete one-glyph line on which the agreement hypothesis
holds and the two widths coincide. -/
theorem width_formulas_agree_witness :
    (∀ g ∈ [(⟨65, ['A'], 500⟩ : Glyph)],
      borbIsSpaceGlyph g = unicodeIsSpaceStr g) ∧
    GlyphLine.get_width_in_text_space
        ⟨[⟨65, ['A'], 500⟩], trivialFont, 12, 3, 5, 200⟩
      = pdfStringWidthInTextSpace [⟨65, ['A'], 500⟩] 12 3 5 200 :=
  ⟨by decide,
   width_formulas_agree ⟨[⟨65, ['A'], 500⟩], trivialFont, 12, 3, 5, 200⟩
     (by decide)⟩

/-- C5 counterexample: on a single glyph whose unicode text is the tab
character (code point 9), with word_spacing 5, the glyph-line width adds the
word spacing but the string-level width does not, so the two computations
differ. -/
theorem width_formulas_differ_on_tab :
    GlyphLine.get_width_in_text_space
        ⟨[⟨9, ['\t'], 500⟩], trivialFont, 12, 0, 5, 100⟩ ≠
      pdfStringWidthInTextSpace [⟨9, ['\t'], 500⟩] 12 0 5 100 := by
  have h1 : borbIsSpaceGlyph ⟨9, ['\t'], 500⟩ = true := by decide
  have h2 : unicodeIsSpaceStr ⟨9, ['\t'], 500⟩ = false := by decide
  norm_num [GlyphLine.get_width_in_text_space, pdfStringWidthInTextSpace,
    h1, h2, dec0_001]

/-- Construction under the single-byte font yields one glyph per byte, in
byte order, provided no byte other than possibly the last one is 0. -/
theorem buildGlyphs_single_byte (uc : ℕ → Char) :
    ∀ bs : List ℕ, (∀ b ∈ bs, b ≤ 255) → (∀ b ∈ bs.dropLast, b ≠ 0) →
      buildGlyphs (singleByteU uc) singleByteW bs
        = bs.map fun b => ⟨b, [uc b], 500⟩
  | [] , _, _ => rfl
  | [b], h, _ => by
    simp [buildGlyphs, singleByteU, singleByteW, h b (by simp), widthOrZero]
  | b0 :: b1 :: rest, h, hz => by
    have hb0 : b0 ≠ 0 := by
      apply hz
      rw [List.dropLast_cons₂]
      exact List.mem_cons_self _ _
    have h2 : ¬ (b0 * 256 + b1 ≤ 255) := by
      have : 1 ≤ b0 := Nat.one_le_iff_ne_zero.mpr hb0
      omega
    have ih := buildGlyphs_single_byte uc (b1 :: rest)
      (fun b hb => h b (List.mem_cons_of_mem _ hb))
      (fun b hb => hz b (by
        rw [List.dropLast_cons₂]
        exact List.mem_cons_of_mem _ hb))
    simp [buildGlyphs, singleByteU, singleByteW, h2,
      h b0 (by simp), widthOrZero, ih]

/-- C3 amended: for a Font mapping every single-byte code 0 to 255 to one
unicode character of width 500 and nothing else, GlyphLine construction
produces exactly one glyph per input byte, in byte order, and get_text
reconstructs the decoded string — provided no byte other than possibly the
last one is 0.  (A 0 byte followed by byte b is consumed by the greedy
two-byte lookup as the code 0·256 + b = b, which the single-byte font does
map, merging the two bytes into one glyph.) -/
theorem glyphline_one_glyph_per_byte (uc : ℕ → Char) (bs : List ℕ)
    (hb : ∀ b ∈ bs, b ≤ 255) (hz : ∀ b ∈ bs.dropLast, b ≠ 0) :
    (mkGlyphLine ⟨singleByteU uc, singleByteW⟩ bs 12 0 0 100).glyphs
        = bs.map (fun b => ⟨b, [uc b], 500⟩) ∧
    (mkGlyphLine ⟨singleByteU uc, singleByteW⟩ bs 12 0 0 100).get_text
        = bs.map uc := by
  have key := buildGlyphs_single_byte uc bs hb hz
  constructor
  · exact key
  · show getText (buildGlyphs (singleByteU uc) singleByteW bs) = bs.map uc
    rw [key]
    unfold getText
    rw [List.map_map]
    have hcomp : (Glyph.unicode ∘ fun b => (⟨b, [uc b], 500⟩ : Glyph))
        = fun b => [uc b] := rfl
    have hmm : bs.map (fun b => [uc b]) = (bs.map uc).map fun a => [a] := by
      rw [List.map_map]
      rfl
    rw [hcomp, hmm, flatten_map_singleton]

/-- C3 witness: the bytes 65, 66 under the code-point font decode to the two
glyphs A and B. -/
theorem glyphline_one_glyph_per_byte_witness :
    ((mkGlyphLine ⟨singleByteU Char.ofNat, singleByteW⟩ [65, 66] 12 0 0
        100).glyphs
      = [⟨65, ['A'], 500⟩, ⟨66, ['B'], 500⟩]) ∧
    (∀ b ∈ [65, 66], b ≤ 255) := by
  constructor
  · have := (glyphline_one_glyph_per_byte Char.ofNat [65, 66] (by decide)
      (by decide)).1
    rw [this]
    decide
  · decide

/-- C3 counterexample: the two bytes 0, 65 produce one single glyph, not
two — the greedy two-byte lookup finds the code 0·256 + 65 = 65 in the
single-byte font — so construction is not one glyph per byte and get_text
drops a character. -/
theorem glyphline_zero_byte_merges :
    buildGlyphs (singleByteU Char.ofNat) singleByteW [0, 65]
        = [⟨65, ['A'], 500⟩] ∧
    (buildGlyphs (singleByteU Char.ofNat) singleByteW [0, 65]).length ≠ 2 := by
  constructor
  · decide
  · decide

/-- A string containing no space does not start with one. -/
theorem startsWithSpace_eq_false {t : List Char} (h : ' ' ∉ t) :
    startsWithSpace t = false := by
  cases t with
  | nil => rfl
  | cons c cs =>
    have : c ≠ ' ' := fun e => h (e ▸ List.mem_cons_self c cs)
    simp [startsWithSpace, this]

/-- A string containing no space does not end with one. -/
theorem endsWithSpace_eq_false {t : List Char} (h : ' ' ∉ t) :
    endsWithSpace t = false := by
  unfold endsWithSpace
  cases hl : t.getLast? with
  | none => simp
  | some c =>
    have hcmem : c ∈ t.getLast? := by rw [Option.mem_def]; exact hl
    obtain ⟨hne, heq⟩ := List.mem_getLast?_eq_getLast hcmem
    have hc : c ∈ t := heq ▸ List.getLast_mem hne
    have : c ≠ ' ' := fun e => h (e ▸ hc)
    simp [this]

/-- The empty accumulated text ends with nothing. -/
theorem endsWithSpace_nil : endsWithSpace [] = false := rfl

/-- Rounding to one decimal with ROUND_HALF_EVEN preserves nonnegativity. -/
theorem pyRound1_nonneg {q : ℚ} (h : 0 ≤ q) : 0 ≤ pyRound1 q := by
  unfold pyRound1 roundHalfEvenInt
  have h10 : (0 : ℚ) ≤ 10 * q := by linarith
  have hfl : (0 : ℤ) ≤ ⌊10 * q⌋ := Int.floor_nonneg.mpr h10
  have hint : (0 : ℤ) ≤ (if (10 * q : ℚ) - (⌊10 * q⌋ : ℚ) < 1 / 2 then ⌊10 * q⌋
      else if 1 / 2 < (10 * q : ℚ) - (⌊10 * q⌋ : ℚ) then ⌊10 * q⌋ + 1
      else if ⌊10 * q⌋ % 2 = 0 then ⌊10 * q⌋ else ⌊10 * q⌋ + 1) := by
    split_ifs <;> omega
  have hcast : (0 : ℚ) ≤ ((if (10 * q : ℚ) - (⌊10 * q⌋ : ℚ) < 1 / 2 then
      ⌊10 * q⌋
      else if 1 / 2 < (10 * q : ℚ) - (⌊10 * q⌋ : ℚ) then ⌊10 * q⌋ + 1
      else if ⌊10 * q⌋ % 2 = 0 then ⌊10 * q⌋ else ⌊10 * q⌋ + 1 : ℤ) : ℚ) := by
    exact_mod_cast hint
  positivity

/-- One unfolding step of the get_text loop on a cons cell. -/
theorem lreGetTextLoop_cons (text : List Char) (right : ℚ) (e : TRE)
    (es : List TRE) :
    lreGetTextLoop text right (e :: es) =
      if startsWithSpace e.text || endsWithSpace text then
        lreGetTextLoop (text ++ e.text) (max e.x0 e.x1) es
      else
        lreGetTextLoop
          (text ++
            (if pyRound1 e.space_character_width * dec0_90 < |right - e.x0|
             then [' '] else []) ++ e.text)
          (max e.x0 e.x1) es := rfl

/-- The get_text loop on the empty list returns the accumulated text. -/
theorem lreGetTextLoop_nil (text : List Char) (right : ℚ) :
    lreGetTextLoop text right [] = text := rfl

/-- C4 amended: on two adjacent single-fragment events whose texts contain
no literal space, with the first baseline ordered (x0 ≤ x1) and the second
event starting r·w to the right of the first's right edge, one inferred
space is inserted for every ratio r above the Decimal(0.90) threshold — in
particular for a gap of 95% as well as one of 120% of the second event's
estimated space width w — whenever w is positive and equal to its own
one-decimal rounding. -/
theorem lre_space_inserted_above_threshold
    (t0 t1 : List Char) (x0 x1 ya yb yc yd x1b sw0 w r : ℚ)
    (h0 : ' ' ∉ t0) (h1 : ' ' ∉ t1)
    (hx : x0 ≤ x1) (hsw0 : 0 ≤ sw0) (hw : 0 < w)
    (hround : pyRound1 w = w) (hr : dec0_90 < r) :
    lreGetText ⟨t0, x0, ya, x1, yb, sw0⟩
        [⟨t1, x1 + r * w, yc, x1b, yd, w⟩] = t0 ++ ' ' :: t1 := by
  have hd90 : (0 : ℚ) ≤ dec0_90 := by norm_num [dec0_90]
  have hrw : (0 : ℚ) ≤ r * w :=
    mul_nonneg (le_of_lt (lt_of_le_of_lt hd90 hr)) hw.le
  have hc1 : ¬ (pyRound1 sw0 * dec0_90 < |min x0 x1 - x0|) := by
    rw [min_eq_left hx, sub_self, abs_zero]
    exact not_lt.mpr (mul_nonneg (pyRound1_nonneg hsw0) hd90)
  have hc2 : pyRound1 w * dec0_90 < |x1 - (x1 + r * w)| := by
    rw [hround, show x1 - (x1 + r * w) = -(r * w) by ring, abs_neg,
      abs_of_nonneg hrw]
    calc w * dec0_90 = dec0_90 * w := by ring
    _ < r * w := mul_lt_mul_of_pos_right hr hw
  rw [lreGetText, lreGetTextLoop_cons]
  dsimp only
  rw [startsWithSpace_eq_false h0, endsWithSpace_nil]
  simp only [Bool.or_false, Bool.false_eq_true, if_false]
  rw [if_neg hc1]
  simp only [List.nil_append]
  rw [lreGetTextLoop_cons]
  dsimp only
  rw [startsWithSpace_eq_false h1, endsWithSpace_eq_false h0]
  simp only [Bool.or_false, Bool.false_eq_true, if_false]
  rw [max_eq_right hx]
  rw [if_pos hc2, lreGetTextLoop_nil]
  simp

/-- The one-decimal ROUND_HALF_EVEN rounding fixes the integer 10. -/
theorem pyRound1_ten : pyRound1 10 = 10 := by
  unfold pyRound1 roundHalfEvenInt
  norm_num

/-- C4 counterexample: two adjacent one-character events, the first with
baseline from 0 to 2 and the second starting at 23/2 — a gap of 9.5, which
is exactly 95% of the second event's estimated space width 10 — receive one
inferred space, because 9.5 exceeds the 90% threshold; the claim says no
space is inserted at a 95% gap. -/
theorem lre_95_percent_gap_inserts_space :
    lreGetText ⟨['a'], 0, 0, 2, 0, 10⟩ [⟨['b'], 23 / 2, 0, 13, 0, 10⟩]
      = ['a', ' ', 'b'] ∧
    lreGetText ⟨['a'], 0, 0, 2, 0, 10⟩ [⟨['b'], 23 / 2, 0, 13, 0, 10⟩]
      ≠ ['a', 'b'] := by
  have hc1 : ¬ (pyRound1 (10 : ℚ) * dec0_90 < |min (0 : ℚ) 2 - 0|) := by
    rw [pyRound1_ten]
    norm_num [min_def, dec0_90]
  have hc2 : pyRound1 (10 : ℚ) * dec0_90 < |max (0 : ℚ) 2 - 23 / 2| := by
    rw [pyRound1_ten, show max (0 : ℚ) 2 = 2 by norm_num [max_def],
      show (2 : ℚ) - 23 / 2 = -(19 / 2) by norm_num, abs_neg,
      abs_of_nonneg (by norm_num : (0 : ℚ) ≤ 19 / 2)]
    norm_num [dec0_90]
  have key : lreGetText ⟨['a'], 0, 0, 2, 0, 10⟩
      [⟨['b'], 23 / 2, 0, 13, 0, 10⟩] = ['a', ' ', 'b'] := by
    rw [lreGetText, lreGetTextLoop_cons]
    dsimp only
    rw [show startsWithSpace ['a'] = false from rfl, endsWithSpace_nil]
    simp only [Bool.or_false, Bool.false_eq_true, if_false]
    rw [if_neg hc1]
    simp only [List.nil_append]
    rw [lreGetTextLoop_cons]
    dsimp only
    rw [show startsWithSpace ['b'] = false from rfl,
      show endsWithSpace ['a'] = false from rfl]
    simp only [Bool.or_false, Bool.false_eq_true, if_false]
    rw [if_pos hc2, lreGetTextLoop_nil]
    rfl
  exact ⟨key, by rw [key]; decide⟩

/-- C4 witness: a 120% gap (r = 6/5) with space width 10 inserts exactly one
space. -/
theorem lre_space_inserted_witness :
    lreGetText ⟨['a'], 0, 0, 2, 0, 10⟩
        [⟨['b'], 2 + (6 / 5) * 10, 0, 20, 0, 10⟩] = ['a'] ++ ' ' :: ['b'] ∧
    dec0_90 < 6 / 5 :=
  ⟨lre_space_inserted_above_threshold ['a'] ['b'] 0 2 0 0 0 0 20 10 10 (6 / 5)
      (by decide) (by decide) (by norm_num) (by norm_num) (by norm_num)
      pyRound1_ten (by norm_num [dec0_90]),
   by norm_num [dec0_90]⟩

/-- The whitespace loop on an all-whitespace tail falls through to the
NUMBER branch with the empty string and returns an empty NUMBER token at
offset tell() - 1. -/
theorem skipWS_all_ws :
    ∀ (t : List ℕ) (pos : ℕ), (∀ b ∈ t, isWS b = true) →
      skipWS t pos = .token ⟨pos + t.length - 1, .NUMBER, []⟩ (pos + t.length)
  | [], pos, _ => by simp [skipWS]
  | b :: t, pos, h => by
    have hb : isWS b = true := h b (by simp)
    have ih := skipWS_all_ws t (pos + 1) (fun x hx => h x (by simp [hx]))
    simp only [skipWS, hb, if_true, ih, List.length_cons]
    have h1 : pos + 1 + t.length - 1 = pos + (t.length + 1) - 1 := by omega
    have h2 : pos + 1 + t.length = pos + (t.length + 1) := by omega
    rw [h1, h2]

/-- C2: on a non-empty stream consisting only of whitespace bytes,
next_token does not return the end-of-stream sentinel: the empty string
read after the whitespace falls into the NUMBER branch (in Python the
membership test of the empty string in "-+.0123456789" is true), the NUMBER
accumulation loop runs zero times, and an empty NUMBER token at offset
length - 1 is returned. -/
theorem whitespace_only_returns_empty_number_token
    (l : List ℕ) (hne : l ≠ []) (hws : ∀ b ∈ l, isWS b = true) :
    nextToken l = .token ⟨l.length - 1, .NUMBER, []⟩ l.length := by
  match l, hne with
  | b :: t, _ =>
    have hb : isWS b = true := hws b (by simp)
    have hs := skipWS_all_ws t 1 (fun x hx => hws x (by simp [hx]))
    simp only [nextToken, nextTokenFrom, hb, if_true, hs, List.length_cons]
    have h1 : 1 + t.length - 1 = t.length + 1 - 1 := by omega
    have h2 : 1 + t.length = t.length + 1 := by omega
    rw [h1, h2]

/-- C2 witness: a single space byte yields the empty NUMBER token at offset
0, not the sentinel. -/
theorem whitespace_only_witness :
    nextToken [32] = .token ⟨0, .NUMBER, []⟩ 1 ∧ ([32] : List ℕ) ≠ [] := by
  constructor
  · have := whitespace_only_returns_empty_number_token [32] (by decide)
      (by decide)
    simpa using this
  · decide

/-- When the parenthesized-string loop terminates without hitting
end-of-stream, it terminated because the nesting counter reached 0 on an
unescaped closing parenthesis, so the accumulated text ends in `)` (41). -/
theorem stringLoop_ends_rparen :
    ∀ (l : List ℕ) (lvl : ℕ), lvl ≠ 0 → (stringLoop l lvl).2.1 = false →
      ∃ txt, (stringLoop l lvl).1 = txt ++ [41]
  | [], _, _, hf => by
    rw [stringLoop.eq_def] at hf
    simp at hf
  | b :: t, lvl, h, hf => by
    by_cases hb : b = 92
    · subst hb
      match t, hf with
      | [], hf =>
        rw [stringLoop.eq_def] at hf
        simp at hf
      | b2 :: t2, hf =>
        have hf2 : (stringLoop t2 lvl).2.1 = false := by
          rw [stringLoop.eq_def] at hf
          simpa using hf
        obtain ⟨txt, htxt⟩ := stringLoop_ends_rparen t2 lvl h hf2
        refine ⟨92 :: b2 :: txt, ?_⟩
        rw [stringLoop.eq_def]
        simp [htxt]
    · by_cases hz : (if b = 40 then lvl + 1 else if b = 41 then lvl - 1
          else lvl) = 0
      · have hb41 : b = 41 := by
          by_cases h40 : b = 40
          · simp [h40] at hz
          · by_cases h41 : b = 41
            · exact h41
            · simp [h40, h41] at hz
              exact absurd hz h
        refine ⟨[], ?_⟩
        subst hb41
        simp at hz
        rw [stringLoop.eq_def]
        simp [hz]
      · have hf2 : (stringLoop t (if b = 40 then lvl + 1
            else if b = 41 then lvl - 1 else lvl)).2.1 = false := by
          rw [stringLoop.eq_def] at hf
          simpa [hb, hz] using hf
        obtain ⟨txt, htxt⟩ := stringLoop_ends_rparen t _ hz hf2
        refine ⟨b :: txt, ?_⟩
        rw [stringLoop.eq_def]
        simp [hb, hz, htxt]

/-- C1 amended: in the parenthesized-STRING branch, exhaustion of the byte
source before the nesting counter reaches 0 — whether or not the
accumulated text ends with a dangling backslash — raises the end-of-file
error, which carries no byte offset; the branch can never raise the
dangling-escape syntax error, because the end-of-file check precedes it and
a normally terminated token text always ends in the closing parenthesis. -/
theorem string_branch_never_syntax_error (t : List ℕ) (p0 : ℕ) :
    (∀ off, nextTokenFrom (40 :: t) p0 ≠ .syntaxError off) ∧
    ((stringLoop t 1).2.1 = true → nextTokenFrom (40 :: t) p0 = .eofError) := by
  have hstep : nextTokenFrom (40 :: t) p0 = dispatchChar 40 t (p0 + 1) := by
    rw [nextTokenFrom.eq_def]
    simp [isWS]
  rw [hstep]
  have hdis : dispatchChar 40 t (p0 + 1) =
      (match stringLoop t 1 with
       | (_, true, _) => NextTokenResult.eofError
       | (txt, false, n) =>
         if (40 :: txt).getLast? = some 92 then
           NextTokenResult.syntaxError (p0 + 1 + n)
         else
           NextTokenResult.token ⟨p0 + 1 - 1, .STRING, 40 :: txt⟩
             (p0 + 1 + n)) := rfl
  rw [hdis]
  rcases hsl : stringLoop t 1 with ⟨txt, eos, n⟩
  cases eos with
  | true => exact ⟨fun off h => by simp at h, fun _ => rfl⟩
  | false =>
    have hf : (stringLoop t 1).2.1 = false := by rw [hsl]
    obtain ⟨txt', htxt⟩ := stringLoop_ends_rparen t 1 one_ne_zero hf
    rw [hsl] at htxt
    simp only at htxt
    have hlast : (40 :: txt).getLast? = some 41 := by
      rw [htxt, show (40 : ℕ) :: (txt' ++ [41]) = (40 :: txt') ++ [41] from
        rfl, List.getLast?_concat]
    dsimp only
    rw [hlast, if_neg (by decide : ¬ (some (41 : ℕ) = some 92))]
    refine ⟨fun off h => by simp at h, fun habs => by simp at habs⟩

/-- C1 counterexample: tokenizing "(bad\" — the stream exhausted right
after a dangling backslash — raises the end-of-file error, which carries no
byte offset; it does not raise the unterminated-escape syntax error the
claim prescribes. -/
theorem unterminated_escape_raises_eof_error :
    nextToken [40, 98, 97, 100, 92] = .eofError := by decide

/-- C1 witness: a string token truncated by end-of-stream ("(x") raises the
end-of-file error, by the branch theorem. -/
theorem string_branch_witness :
    nextTokenFrom (40 :: [120]) 0 = .eofError ∧
    (stringLoop [120] 1).2.1 = true :=
  ⟨(string_branch_never_syntax_error [120] 0).2 (by decide), by decide⟩

end Borb
